import Mathlib

/-!
A shallow embedding of the expression-test engine in
`src/webgpu/shader/execution/expression/expression.ts`: the type/value data
model it consumes, the layout calculator (`valueStride` / `valueStrides`),
the storage-encoding helpers (`storageType` / `fromStorage` / `toStorage`),
the shader builders (`basicExpressionBuilder` / `compoundAssignmentBuilder`),
the case packer (`packScalarsToVector`), the batch partitioning and flight
control of `run`, the pipeline cache (`getOrCreate`) and the result verifier
(the `checkExpectation` closure of `submitBatch`).

JavaScript exceptions (`throw`, failed `assert`) are embedded as
`Except String`; machine numbers that the engine only sums and divides are
`Nat`. External collaborators (the value/type codec of `conversion.js`, the
comparator library of `compare.js`, the GPU device) are modelled from the
spec where a definition is needed; each such definition is marked
`Modelled from the spec:` in its doc comment.
-/

namespace CTS

/-- The element kinds of the value/type model (spec section 3: element kind
bool/i32/u32/f32/f16/abstract-float). -/
inductive ScalarKind where
  | bool
  | i32
  | u32
  | f32
  | f16
  | abstractFloat
deriving DecidableEq, Repr

/-- The `Type` variants the engine consumes: `ScalarType`,
`VectorType(width, elementType)` and `MatrixType(cols, rows, elementType)`;
a vector or matrix element type is always a scalar kind. -/
inductive Ty where
  | scalar (kind : ScalarKind)
  | vector (width : Nat) (elem : ScalarKind)
  | matrix (cols rows : Nat) (elem : ScalarKind)
deriving DecidableEq, Repr

/-- Modelled from the spec: a `Scalar` value of `conversion.js` — its kind and
an opaque payload (the byte-level encoding of the payload is the external
codec and is not interpreted here, except that a `bool` scalar carries 0 or
1). -/
structure Scalar where
  kind : ScalarKind
  bits : Nat
deriving DecidableEq, Repr

/-- Modelled from the spec: a concrete `Value` — a scalar, a vector of
scalars, or a matrix of scalar columns, mirroring the `Scalar` / `Vector` /
`Matrix` classes of `conversion.js`. -/
inductive Value where
  | scalar (s : Scalar)
  | vector (elements : List Scalar)
  | matrix (columns : List (List Scalar))
deriving DecidableEq, Repr

def defaultScalar : Scalar := { kind := ScalarKind.bool, bits := 0 }

def defaultValue : Value := Value.scalar defaultScalar

/-- Modelled from the spec: the element kind rendered as WGSL source. -/
def ScalarKind.wgslName : ScalarKind → String
  | .bool => "bool"
  | .i32 => "i32"
  | .u32 => "u32"
  | .f32 => "f32"
  | .f16 => "f16"
  | .abstractFloat => "abstract-float"

/-- Modelled from the spec: the textual rendering of a `Type`
(`conversion.js` toString, used in diagnostics and generated WGSL). -/
def tyStr : Ty → String
  | .scalar k => k.wgslName
  | .vector w k => "vec" ++ toString w ++ "<" ++ k.wgslName ++ ">"
  | .matrix c r k => "mat" ++ toString c ++ "x" ++ toString r ++ "<" ++ k.wgslName ++ ">"

/-- Modelled from the spec: `scalarTypeOf` of `conversion.js` — the element
kind of a scalar, vector or matrix type. -/
def scalarTypeOf : Ty → ScalarKind
  | .scalar k => k
  | .vector _ k => k
  | .matrix _ _ k => k

/-- Modelled from the spec: the black-box codec operation
`toSourceLiteral(value) -> string` (`Value.wgsl()` in the source). Only used
opaquely: no claim depends on the rendering itself. -/
def Scalar.wgsl (s : Scalar) : String :=
  s.kind.wgslName ++ "(" ++ toString s.bits ++ ")"

/-- Modelled from the spec: literal rendering of a whole value. -/
def Value.wgsl : Value → String
  | .scalar s => s.wgsl
  | .vector es =>
      "vec" ++ toString es.length ++ "(" ++
        String.intercalate ", " (es.map Scalar.wgsl) ++ ")"
  | .matrix cols =>
      "mat(" ++
        String.intercalate ", "
          (cols.map fun c => String.intercalate ", " (c.map Scalar.wgsl)) ++ ")"

/-- The result of one comparison (`Check` of `compare.js`): whether the
actual value matched, plus formatted actual/expected strings. -/
structure CheckResult where
  matched : Bool
  got : String
  expected : String
deriving Repr

def defaultCheck : CheckResult := { matched := false, got := "", expected := "" }

/-- `ComparatorImpl` of `compare.js`: a function from the actual value to a
check result. -/
abbrev ComparatorImpl := Value → CheckResult

/-- `Comparator` of `compare.js`: the comparison capability plus its kind
tag. -/
structure Comparator where
  compare : ComparatorImpl
  kind : String

/-- Modelled from the spec: `FPInterval` of the external floating-point
library, opaque here (interval arithmetic is out of the embedding's scope). -/
structure FPInterval where
  tag : Nat
deriving DecidableEq, Repr

/-- `Expectation = Value | FPInterval | FPInterval[] | FPInterval[][] |
Comparator` (expression.ts line 29), as a closed tagged union. -/
inductive Expectation where
  | value (v : Value)
  | interval (i : FPInterval)
  | intervals (is : List FPInterval)
  | intervalGrid (is : List (List FPInterval))
  | comparator (c : Comparator)

/-- `isComparator` (expression.ts lines 32-40): an expectation is a
comparator exactly when it is none of the value/interval shapes. -/
def isComparator : Expectation → Bool
  | .comparator _ => true
  | _ => false

/-- Modelled from the spec: `compare(got, expected)` of `compare.js`, the
exact-match comparator used when a concrete expectation is wrapped. A value
expectation matches by equality; comparison against an interval expectation
(the source casts it to `Value`) is the external FP library and is modelled
as a mismatch; no claim depends on this branch. -/
def valueCompare (got : Value) (expected : Expectation) : CheckResult :=
  match expected with
  | .value v => { matched := got == v, got := got.wgsl, expected := v.wgsl }
  | _ => { matched := false, got := got.wgsl, expected := "<interval>" }

/-- `toComparator` (expression.ts lines 43-49): pass a comparator through,
wrap anything else in a kind-value comparator. -/
def toComparator (input : Expectation) : Comparator :=
  match input with
  | .comparator c => c
  | e => { compare := fun got => valueCompare got e, kind := "value" }

/-- A case input is a single value or an ordered list of values
(`input: Value | Array<Value>`). -/
inductive CaseInput where
  | one (v : Value)
  | many (vs : List Value)

/-- `Case` (expression.ts lines 52-57). -/
structure Case where
  input : CaseInput
  expected : Expectation

def defaultCase : Case :=
  { input := CaseInput.one defaultValue, expected := Expectation.value defaultValue }

/-- `InputSource` (expression.ts lines 63-67). -/
inductive InputSource where
  | const
  | uniform
  | storage_r
  | storage_rw
deriving DecidableEq, Repr

/-- `map` helper (expression.ts lines 398-403): apply `fn` to each element
of an array input, or to the single value of a non-array input. -/
def inputMap (v : CaseInput) (fn : Value → α) : List α :=
  match v with
  | .many vs => vs.map fn
  | .one x => [fn x]

/-- `valueStride` (expression.ts lines 86-127): matrices use the fixed
stride table over (cols, rows) in 2..4 x 2..4; scalars and vectors use 16.
A matrix shape outside the table hits `unreachable()` in the source (a fatal
configuration error); it is mapped to 0 here and excluded by `layoutHandled`
wherever a claim needs the layout to be defined. -/
def valueStride : Ty → Nat
  | .matrix 2 2 _ => 16
  | .matrix 2 3 _ => 32
  | .matrix 2 4 _ => 32
  | .matrix 3 2 _ => 32
  | .matrix 3 3 _ => 64
  | .matrix 3 4 _ => 64
  | .matrix 4 2 _ => 32
  | .matrix 4 3 _ => 64
  | .matrix 4 4 _ => 64
  | .matrix _ _ _ => 0
  | _ => 16

/-- The matrix shapes `valueStride` handles (everything else faults in the
source). -/
def layoutHandled : Ty → Prop
  | .matrix c r _ => 2 ≤ c ∧ c ≤ 4 ∧ 2 ≤ r ∧ r ≤ 4
  | _ => True

instance : DecidablePred layoutHandled := fun ty => by
  cases ty <;> simp [layoutHandled] <;> infer_instance

/-- `valueStrides` (expression.ts lines 130-132): the sum of the strides.
The source uses `reduce` without an initial value, which faults on an empty
list; callers always pass at least one parameter type, and on a nonempty
list this fold computes the same sum. -/
def valueStrides (tys : List Ty) : Nat :=
  (tys.map valueStride).foldl (· + ·) 0

/-- The storage kind of an element kind: `bool` is stored as `u32`, all
other kinds as themselves (the scalar case of `storageType`). -/
def storageScalar (k : ScalarKind) : ScalarKind :=
  if k = ScalarKind.bool then ScalarKind.u32 else k

/-- `storageType` (expression.ts lines 135-145): bool scalars become u32,
vectors convert their element kind (the source recurses through
`storageType` on the element type), everything else passes through. -/
def storageType : Ty → Ty
  | .scalar k => .scalar (storageScalar k)
  | .vector w k => .vector w (storageScalar k)
  | ty => ty

/-- `fromStorage` (expression.ts lines 148-165): converts a loaded storage
expression back to type `ty`. Asserts there is no storage type for
abstract-float scalars and vectors; bools compare against zero; everything
else passes through unchanged. -/
def fromStorage (ty : Ty) (expr : String) : Except String String :=
  match ty with
  | .scalar k =>
      if k = ScalarKind.abstractFloat then
        .error "No storage type defined for AbstractFloat values"
      else if k = ScalarKind.bool then
        .ok (expr ++ " != 0u")
      else
        .ok expr
  | .vector w k =>
      if k = ScalarKind.abstractFloat then
        .error "No storage type defined for AbstractFloat values"
      else if k = ScalarKind.bool then
        .ok (expr ++ " != vec" ++ toString w ++ "<u32>(0u)")
      else
        .ok expr
  | _ => .ok expr

/-- `toStorage` (expression.ts lines 168-185): converts an expression of
type `ty` to its storage type. Bools become `select(0u, 1u, e)` (element-wise
for vectors); abstract-float scalars and vectors fault; everything else
passes through unchanged. -/
def toStorage (ty : Ty) (expr : String) : Except String String :=
  match ty with
  | .scalar k =>
      if k = ScalarKind.abstractFloat then
        .error "No storage type defined for AbstractFloat values"
      else if k = ScalarKind.bool then
        .ok ("select(0u, 1u, " ++ expr ++ ")")
      else
        .ok expr
  | .vector w k =>
      if k = ScalarKind.abstractFloat then
        .error "No storage type defined for AbstractFloat values"
      else if k = ScalarKind.bool then
        .ok ("select(vec" ++ toString w ++ "<u32>(0u), vec" ++ toString w ++
             "<u32>(1u), " ++ expr ++ ")")
      else
        .ok expr
  | _ => .ok expr

/-- Modelled from the spec: the device-side meaning of the conversion
`toStorage` emits — the storage-encoding rule of spec section 4.3: a bool
scalar becomes a u32 0/1 (`select(0u, 1u, e)`), a bool vector element-wise
the same way, and any other type passes through unchanged. -/
def toStorageSem (ty : Ty) (v : Value) : Value :=
  match ty, v with
  | .scalar .bool, .scalar s =>
      .scalar { kind := ScalarKind.u32, bits := if s.bits ≠ 0 then 1 else 0 }
  | .vector _ .bool, .vector es =>
      .vector (es.map fun s =>
        { kind := ScalarKind.u32, bits := if s.bits ≠ 0 then 1 else 0 })
  | _, v => v

/-- Modelled from the spec: the device-side meaning of the conversion
`fromStorage` emits — a stored u32 is compared against zero (`e != 0u`,
element-wise for vectors) to recover the bool; any other type passes
through unchanged. -/
def fromStorageSem (ty : Ty) (v : Value) : Value :=
  match ty, v with
  | .scalar .bool, .scalar s =>
      .scalar { kind := ScalarKind.bool, bits := if s.bits ≠ 0 then 1 else 0 }
  | .vector _ .bool, .vector es =>
      .vector (es.map fun s =>
        { kind := ScalarKind.bool, bits := if s.bits ≠ 0 then 1 else 0 })
  | _, v => v

/-- `ExpressionBuilder` (expression.ts line 481): WGSL for an expression
over the given input value strings. -/
abbrev ExpressionBuilder := List String → String

/-- `ShaderBuilder` (expression.ts lines 413-418), with JavaScript throws
embedded as `Except.error`. -/
abbrev ShaderBuilder := List Ty → Ty → List Case → InputSource → Except String String

/-- `wgslOutputs` (expression.ts lines 423-429): the output storage buffer
declaration at binding 0. -/
def wgslOutputs (resultType : Ty) (count : Nat) : String :=
  "\nstruct Output \x7b\n  @size(" ++ toString (valueStride resultType) ++
  ") value : " ++ tyStr (storageType resultType) ++
  "\n\x7d;\n@group(0) @binding(0) var<storage, read_write> outputs : array<Output, " ++
  toString count ++ ">;"

/-- `wgslValuesArray` (expression.ts lines 434-448): the per-case constant
table, or the empty string when any parameter type is abstract-float
(such values cannot be stored in an array). -/
def wgslValuesArray (parameterTypes : List Ty) (resultType : Ty) (cases : List Case)
    (expressionBuilder : ExpressionBuilder) : String :=
  if parameterTypes.any (fun ty => scalarTypeOf ty == ScalarKind.abstractFloat) then ""
  else
    "\nconst values = array(\n  " ++
      String.intercalate ",\n  "
        (cases.map fun c => expressionBuilder (inputMap c.input Value.wgsl)) ++
      "\n);"

/-- `wgslInputVar` (expression.ts lines 453-463): the input buffer binding
declaration at binding 1; throws for a source with no input var. -/
def wgslInputVar (inputSource : InputSource) (count : Nat) : Except String String :=
  match inputSource with
  | .storage_r =>
      .ok ("@group(0) @binding(1) var<storage, read> inputs : array<Input, " ++
           toString count ++ ">;")
  | .storage_rw =>
      .ok ("@group(0) @binding(1) var<storage, read_write> inputs : array<Input, " ++
           toString count ++ ">;")
  | .uniform =>
      .ok ("@group(0) @binding(1) var<uniform> inputs : array<Input, " ++
           toString count ++ ">;")
  | .const => .error "InputSource const does not use an input var"

/-- `wgslHeader` (expression.ts lines 469-475): the f16 enable directive
when any parameter or the result uses f16. -/
def wgslHeader (parameterTypes : List Ty) (resultType : Ty) : String :=
  if scalarTypeOf resultType == ScalarKind.f16 ||
      parameterTypes.any (fun ty => scalarTypeOf ty == ScalarKind.f16) then
    "enable f16;\n"
  else ""

/-- `basicExpressionBuilder` (expression.ts lines 487-565). The
`globalTestConfig.unrollConstEvalLoops` toggle is threaded as `unroll`. -/
def basicExpressionBuilder (unroll : Bool) (expressionBuilder : ExpressionBuilder) :
    ShaderBuilder :=
  fun parameterTypes resultType cases inputSource =>
    if inputSource = InputSource.const then
      -- Constant eval (expression.ts lines 494-531)
      let bodyE : Except String String :=
        if parameterTypes.any (fun ty => scalarTypeOf ty == ScalarKind.abstractFloat) then
          -- Directly assign the expression to the output, to avoid an
          -- intermediate store, which will concretize the value early
          .ok (String.intercalate "\n  " (cases.enum.map fun p =>
            "  outputs[" ++ toString p.1 ++ "].value = " ++
              expressionBuilder (inputMap p.2.input Value.wgsl) ++ ";"))
        else if unroll then
          (cases.enum.mapM fun (p : Nat × Case) => do
            let v ← toStorage resultType ("values[" ++ toString p.1 ++ "]")
            pure ("  outputs[" ++ toString p.1 ++ "].value = " ++ v ++ ";")).map
            (String.intercalate "\n  ")
        else do
          let v ← toStorage resultType "values[i]"
          pure ("\n  for (var i = 0u; i < " ++ toString cases.length ++
                "; i++) \x7b\n    outputs[i].value = " ++ v ++ ";\n  \x7d")
      do
        let body ← bodyE
        pure ("\n" ++ wgslHeader parameterTypes resultType ++ "\n\n" ++
              wgslOutputs resultType cases.length ++ "\n\n" ++
              wgslValuesArray parameterTypes resultType cases expressionBuilder ++
              "\n\n@compute @workgroup_size(1)\nfn main() \x7b\n" ++ body ++ "\n\x7d")
    else
      -- Runtime eval (expression.ts lines 532-563)
      do
        -- paramExpr: load the ith parameter from the input buffer
        let paramExprs ← parameterTypes.enum.mapM fun (p : Nat × Ty) =>
          fromStorage p.2 ("inputs[i].param" ++ toString p.1)
        let expr ← toStorage resultType (expressionBuilder paramExprs)
        let inputVar ← wgslInputVar inputSource cases.length
        pure ("\n" ++ wgslHeader parameterTypes resultType ++
              "\n\nstruct Input \x7b\n" ++
              String.intercalate "\n" (parameterTypes.enum.map fun p =>
                "  @size(" ++ toString (valueStride p.2) ++ ") param" ++
                  toString p.1 ++ " : " ++ tyStr (storageType p.2) ++ ",") ++
              "\n\x7d;\n\n" ++
              wgslOutputs resultType cases.length ++ "\n\n" ++ inputVar ++
              "\n\n@compute @workgroup_size(1)\nfn main() \x7b\n  for (var i = 0; i < " ++
              toString cases.length ++ "; i++) \x7b\n    outputs[i].value = " ++
              expr ++ ";\n  \x7d\n\x7d\n")

/-- The `(c.input as Value[])` cast of the compound builder's constant-eval
path (expression.ts line 614) followed by `.map`: on an array input it is
the list of values; on a single value it faults at run time (the `Scalar`,
`Vector` and `Matrix` value classes have no `map` method, so
`c.input.map(...)` raises a TypeError). -/
def castValueList : CaseInput → Except String (List Value)
  | .many vs => .ok vs
  | .one _ => .error "TypeError: c.input.map is not a function"

/-- `cases.map(c => (c.input as Value[]).map(v => v.wgsl()))` (expression.ts
line 614), with the run-time TypeError of a non-array input propagated: the
per-case lists of rendered value literals. -/
def caseValueStrings : List Case → Except String (List (List String))
  | [] => .ok []
  | c :: cs => do
      let vs ← castValueList c.input
      let rest ← caseValueStrings cs
      .ok (vs.map Value.wgsl :: rest)

/-- `compoundAssignmentBuilder` (expression.ts lines 571-657). Validates the
parameter arity and that the result type equals the LHS type before any text
is built. -/
def compoundAssignmentBuilder (unroll : Bool) (op : String) : ShaderBuilder :=
  fun parameterTypes resultType cases inputSource =>
    if parameterTypes.length ≠ 2 then
      .error "compoundBinaryOp() requires exactly two parameters values per case"
    else
      let lhsType := parameterTypes.getD 0 (Ty.scalar ScalarKind.bool)
      let rhsType := parameterTypes.getD 1 (Ty.scalar ScalarKind.bool)
      if lhsType ≠ resultType then
        .error ("compoundBinaryOp() requires result type (" ++ tyStr resultType ++
                ") to be equal to the LHS type (" ++ tyStr lhsType ++ ")")
      else if inputSource = InputSource.const then
        -- Constant eval (expression.ts lines 591-630)
        let body :=
          if unroll then
            String.intercalate "\n  " (cases.enum.map fun p =>
              "\n  var ret_" ++ toString p.1 ++ " = lhs[" ++ toString p.1 ++
              "];\n  ret_" ++ toString p.1 ++ " " ++ op ++ " rhs[" ++
              toString p.1 ++ "];\n  outputs[" ++ toString p.1 ++ "].value = " ++
              tyStr (storageType resultType) ++ "(ret_" ++ toString p.1 ++ ");")
          else
            "\n  for (var i = 0u; i < " ++ toString cases.length ++
            "; i++) \x7b\n    var ret = lhs[i];\n    ret " ++ op ++
            " rhs[i];\n    outputs[i].value = " ++ tyStr (storageType resultType) ++
            "(ret);\n  \x7d"
        do
          let values ← caseValueStrings cases
          pure ("\n" ++ wgslHeader parameterTypes resultType ++ "\n" ++
                wgslOutputs resultType cases.length ++
                "\n\nconst lhs = array(\n" ++
                String.intercalate ",\n  " (values.map fun c => c.getD 0 "undefined") ++
                "\n      );\nconst rhs = array(\n" ++
                String.intercalate ",\n  " (values.map fun c => c.getD 1 "undefined") ++
                "\n);\n\n@compute @workgroup_size(1)\nfn main() \x7b\n" ++ body ++ "\n\x7d")
      else
        -- Runtime eval (expression.ts lines 631-656)
        do
          let inputVar ← wgslInputVar inputSource cases.length
          pure ("\n" ++ wgslHeader parameterTypes resultType ++ "\n" ++
                wgslOutputs resultType cases.length ++
                "\n\nstruct Input \x7b\n  @size(" ++ toString (valueStride lhsType) ++
                ") lhs : " ++ tyStr (storageType lhsType) ++ ",\n  @size(" ++
                toString (valueStride rhsType) ++ ") rhs : " ++
                tyStr (storageType rhsType) ++ ",\n\x7d\n\n" ++ inputVar ++
                "\n\n@compute @workgroup_size(1)\nfn main() \x7b\n  for (var i = 0; i < " ++
                toString cases.length ++ "; i++) \x7b\n    var ret = " ++
                tyStr lhsType ++ "(inputs[i].lhs);\n    ret " ++ op ++ " " ++
                tyStr rhsType ++ "(inputs[i].rhs);\n    outputs[i].value = " ++
                tyStr (storageType resultType) ++ "(ret);\n  \x7d\n\x7d\n")

/-! ## Case packer (`packScalarsToVector`, expression.ts lines 785-860) -/

def Ty.isScalar : Ty → Bool
  | .scalar _ => true
  | _ => false

/-- The `p as ScalarType` cast (line 807): validation has ensured `p` is a
scalar type. -/
def asScalarKind : Ty → ScalarKind
  | .scalar k => k
  | _ => ScalarKind.bool

/-- The `... as Scalar` cast (line 820): on scalar-only case lists the value
is always a scalar. -/
def asScalar : Value → Scalar
  | .scalar s => s
  | _ => defaultScalar

/-- `input instanceof Array ? input[paramIdx] : input` (line 820). -/
def inputElem (inp : CaseInput) (paramIdx : Nat) : Value :=
  match inp with
  | .many vs => vs.getD paramIdx defaultValue
  | .one v => v

/-- `clampCaseIdx` (line 810). -/
def clampCaseIdx (cases : List Case) (idx : Nat) : Nat :=
  min idx (cases.length - 1)

/-- The `(got as Vector).elements` access of the packed comparator
(line 836). -/
def asVectorElems : Value → List Scalar
  | .vector es => es
  | _ => []

/-- The vectorized inputs of one packed case (lines 814-823): one vector per
parameter position, gathering `vectorWidth` scalars at clamped indices. -/
def packedInputsAt (parameterTypes : List Ty) (cases : List Case)
    (vectorWidth caseIdx : Nat) : List Value :=
  (List.range parameterTypes.length).map fun paramIdx =>
    Value.vector ((List.range vectorWidth).map fun i =>
      asScalar (inputElem
        (cases.getD (clampCaseIdx cases (caseIdx + i)) defaultCase).input paramIdx))

/-- The lane comparators of one packed case (lines 826-829). -/
def cmpImplsAt (cases : List Case) (vectorWidth caseIdx : Nat) : List ComparatorImpl :=
  (List.range vectorWidth).map fun i =>
    (toComparator (cases.getD (clampCaseIdx cases (caseIdx + i)) defaultCase).expected).compare

/-- The composite comparator of one packed case (lines 830-848): each lane is
checked by its own comparator against the corresponding vector element, the
composite matches when the conjunction of lane results holds, and the
formatted strings join the per-lane strings. -/
def packedComparator (cmpImpls : List ComparatorImpl) (vectorWidth : Nat)
    (packedResultType : Ty) : Comparator :=
  { compare := fun got =>
      let ds := (List.range vectorWidth).map fun i =>
        (cmpImpls.getD i (fun _ => defaultCheck))
          (Value.scalar ((asVectorElems got).getD i defaultScalar))
      { matched := ds.foldl (fun m d => m && d.matched) true
        got := tyStr packedResultType ++ "(" ++
          String.intercalate ", " (ds.map CheckResult.got) ++ ")"
        expected := tyStr packedResultType ++ "(" ++
          String.intercalate ", " (ds.map CheckResult.expected) ++ ")" }
    kind := "packed" }

/-- One iteration of the packing loop (lines 813-853): the packed case
starting at `caseIdx`. -/
def mkPackedCase (parameterTypes : List Ty) (cases : List Case)
    (vectorWidth : Nat) (packedResultType : Ty) (caseIdx : Nat) : Case :=
  { input := CaseInput.many (packedInputsAt parameterTypes cases vectorWidth caseIdx)
    expected := Expectation.comparator
      (packedComparator (cmpImplsAt cases vectorWidth caseIdx) vectorWidth packedResultType) }

/-- The `while (caseIdx < cases.length)` loop (lines 812-853), advancing by
`vectorWidth` each iteration. The loop terminates only for a positive width
(the source is documented for widths 2, 3 and 4), which the proof argument
`hW` records. -/
def packLoop (parameterTypes : List Ty) (cases : List Case) (vectorWidth : Nat)
    (hW : 0 < vectorWidth) (packedResultType : Ty) (caseIdx : Nat) : List Case :=
  if h : caseIdx < cases.length then
    mkPackedCase parameterTypes cases vectorWidth packedResultType caseIdx ::
      packLoop parameterTypes cases vectorWidth hW packedResultType (caseIdx + vectorWidth)
  else []
termination_by cases.length - caseIdx
decreasing_by omega

/-- `packScalarsToVector` (lines 785-860): validates that every parameter
type and the result type are scalars, re-types them as `vectorWidth`-wide
vectors, and packs the case list group-wise. -/
def packScalarsToVector (parameterTypes : List Ty) (resultType : Ty)
    (cases : List Case) (vectorWidth : Nat) (hW : 0 < vectorWidth) :
    Except String (List Case × List Ty × Ty) :=
  match parameterTypes.find? (fun ty => !ty.isScalar) with
  | some ty =>
      .error ("packScalarsToVector() can only be used on scalar parameter types, but a parameter type is a " ++ tyStr ty)
  | none =>
      if !resultType.isScalar then
        .error ("packScalarsToVector() can only be used with a scalar return type, but the return type is a " ++ tyStr resultType)
      else
        let packedParameterTypes :=
          parameterTypes.map fun p => Ty.vector vectorWidth (asScalarKind p)
        let packedResultType := Ty.vector vectorWidth (asScalarKind resultType)
        .ok (packLoop parameterTypes cases vectorWidth hW packedResultType 0,
             packedParameterTypes, packedResultType)

/-! ## Batch partitioning and the submission loop of `run`
(expression.ts lines 239-302) -/

/-- `casesPerBatch` (lines 239-259): 32 for const; the applicable binding
limit divided by the combined per-case input stride for buffer-backed
sources (`Math.floor` is `Nat` division). -/
def casesPerBatch (inputSource : InputSource)
    (maxUniformBufferBindingSize maxStorageBufferBindingSize : Nat)
    (parameterTypes : List Ty) : Nat :=
  match inputSource with
  | .const => 32
  | .uniform =>
      min (1024 * 2) maxUniformBufferBindingSize / valueStrides parameterTypes
  | .storage_r | .storage_rw =>
      maxStorageBufferBindingSize / valueStrides parameterTypes

/-- The device binding-size limit applicable to an input source: buffer
sources bind the input buffer against the uniform limit (capped at 2k by the
source) or the storage limit; a const source binds no input buffer (its
output buffer is a storage binding, so the storage limit is the one named,
though the source never checks it). -/
def applicableLimit (inputSource : InputSource)
    (maxUniformBufferBindingSize maxStorageBufferBindingSize : Nat) : Nat :=
  match inputSource with
  | .const => maxStorageBufferBindingSize
  | .uniform => min (1024 * 2) maxUniformBufferBindingSize
  | .storage_r | .storage_rw => maxStorageBufferBindingSize

/-- The batches the submission loop (lines 279-302) carves out of `cases`:
`cases.slice(i, Math.min(i + casesPerBatch, cases.length))` is
`(cases.drop i).take casesPerBatch`, and `i` advances by `casesPerBatch`.
The loop terminates only for a positive `casesPerBatch`, which the proof
argument `h` records; `loopIters` below models the loop head without that
assumption. -/
def sliceBatches (cases : List Case) (casesPerBatchN : Nat)
    (h : 0 < casesPerBatchN) (i : Nat) : List (List Case) :=
  if hi : i < cases.length then
    ((cases.drop i).take casesPerBatchN) ::
      sliceBatches cases casesPerBatchN h (i + casesPerBatchN)
  else []
termination_by cases.length - i

/-- The loop head `for (let i = 0; i < len; i += step)` of `run`
(line 279), instrumented with fuel: `some n` when the loop exits after `n`
iterations within `fuel` steps, `none` when the fuel runs out first. The
loop terminates exactly when some fuel suffices. -/
def loopIters (len step : Nat) : Nat → Nat → Option Nat
  | 0, i => if i < len then none else some 0
  | fuel + 1, i =>
      if i < len then (loopIters len step fuel (i + step)).map (· + 1) else some 0

/-- `outputBufferSize` of `submitBatch` (line 327): the bytes of the output
buffer for a batch. -/
def outputBufferSize (resultType : Ty) (cases : List Case) : Nat :=
  cases.length * valueStride resultType

/-- `inputSize` of `buildPipeline` (line 722): the bytes of the input buffer
for a batch. -/
def inputBufferSize (parameterTypes : List Ty) (cases : List Case) : Nat :=
  cases.length * valueStrides parameterTypes

/-! ## Flight control (expression.ts lines 264-302)

The submission loop and the completion callbacks interleave only at the
`await` suspension points, so the run is a transition system over the
counter `batchesInFlight` and the submitter's position. `pc = ready` is the
submitter at the top of an iteration (or done), `blocked` is the submitter
suspended on the admission promise (`resolvePromiseBlockingBatch` set), and
`woken` is the promise resolved but the submitter not yet resumed. -/

/-- `maxBatchesInFlight` (line 266). -/
def maxBatchesInFlight : Nat := 5

inductive FlightPC where
  | ready
  | blocked
  | woken
deriving DecidableEq, Repr

structure FlightState where
  batchesInFlight : Nat
  pc : FlightPC
deriving DecidableEq, Repr

/-- One atomic segment of the run between suspension points:
`enter` is the check at line 282 falling through plus the increment at
line 289 (no `await` separates them); `block` is the check suspending on the
promise (lines 282-288); the `finish*` steps are `batchFinishedCallback`
(lines 269-277), which decrements and, when a submitter is blocked, resolves
its promise exactly once; `resume` is the suspended submitter resuming after
its promise resolved and performing the increment at line 289. -/
inductive FlightStep : FlightState → FlightState → Prop where
  | enter (n : Nat) (h : ¬ maxBatchesInFlight < n) :
      FlightStep ⟨n, .ready⟩ ⟨n + 1, .ready⟩
  | block (n : Nat) (h : maxBatchesInFlight < n) :
      FlightStep ⟨n, .ready⟩ ⟨n, .blocked⟩
  | finishReady (n : Nat) : FlightStep ⟨n + 1, .ready⟩ ⟨n, .ready⟩
  | finishBlocked (n : Nat) : FlightStep ⟨n + 1, .blocked⟩ ⟨n, .woken⟩
  | finishWoken (n : Nat) : FlightStep ⟨n + 1, .woken⟩ ⟨n, .woken⟩
  | resume (n : Nat) : FlightStep ⟨n, .woken⟩ ⟨n + 1, .ready⟩

/-- The states a run can be in: `batchesInFlight = 0` with the submitter at
the loop head (line 267), then any interleaving of steps. -/
inductive FlightReachable : FlightState → Prop where
  | start : FlightReachable ⟨0, .ready⟩
  | step {s s' : FlightState} :
      FlightReachable s → FlightStep s s' → FlightReachable s'

/-! ## Pipeline cache (expression.ts lines 188-206, 694-776) -/

/-- The run-scoped state the pipeline resolution touches: the
`PipelineCache` map (keyed by shader source text) and the device's pipeline
construction, modelled as a supply of fresh pipeline ids. -/
structure RunState where
  cache : List (String × Nat)
  nextPipelineId : Nat
deriving DecidableEq, Repr

/-- `map.get(key)` on the pipeline cache: exact key lookup. -/
def cacheLookup (m : List (String × Nat)) (key : String) : Option Nat :=
  (m.find? (fun e => e.1 == key)).map Prod.snd

/-- `t.device.createComputePipeline` (lines 702, 751): every call builds a
distinct pipeline, modelled by a fresh id. -/
def createComputePipeline (st : RunState) : Nat × RunState :=
  (st.nextPipelineId, { st with nextPipelineId := st.nextPipelineId + 1 })

/-- `getOrCreate` (lines 198-206) at the pipeline cache: return the entry
for `key` if present, else call `create` and insert the result. -/
def getOrCreate (st : RunState) (key : String)
    (create : RunState → Nat × RunState) : Nat × RunState :=
  match cacheLookup st.cache key with
  | some existing => (existing, st)
  | none =>
      let r := create st
      (r.1, { r.2 with cache := (key, r.1) :: r.2.cache })

/-- The pipeline resolution of `buildPipeline` (lines 696-776): a const
source builds a fresh module and pipeline without consulting the cache
(lines 697-714); buffer-backed sources fetch-or-create keyed by the
synthesized source text (lines 746-755). Buffer packing, bind groups and the
case-type validation preceding them do not affect which pipeline is
returned and are not modelled here. -/
def buildPipelineResolve (inputSource : InputSource) (source : String)
    (st : RunState) : Nat × RunState :=
  match inputSource with
  | .const => createComputePipeline st
  | _ => getOrCreate st source createComputePipeline

/-- The pipeline resolutions of a run's successive batches, sharing the run's
cache (line 262: one cache per `run`). -/
def resolveAll (st : RunState) : List (InputSource × String) → List Nat × RunState
  | [] => ([], st)
  | b :: bs =>
      let r := buildPipelineResolve b.1 b.2 st
      let rest := resolveAll r.2 bs
      (r.1 :: rest.1, rest.2)

/-! ## Result verifier (the `checkExpectation` closure of `submitBatch`,
expression.ts lines 357-390) -/

/-- The failure record formatting of lines 374-376. The rendering of input
values (`c.input.join(', ')` / string conversion) is the external value
toString, modelled by `Value.wgsl`. -/
def errRecord (c : Case) (cmp : CheckResult) : String :=
  "(" ++ (match c.input with
          | .many vs => String.intercalate ", " (vs.map Value.wgsl)
          | .one v => v.wgsl) ++
  ")\n    returned: " ++ cmp.got ++ "\n    expected: " ++ cmp.expected

/-- `checkExpectation` (lines 358-381). `readValue` is the black-box codec
operation `resultType.read(outputData, offset)` (Modelled from the spec:
`read(bytes, offset) -> value`), abstracted over the byte-buffer type. The
closure decodes one value per case at offsets `i * valueStride(resultType)`,
runs every case's comparator, collects every failure record, and returns an
error exactly when the record list is nonempty. -/
def checkExpectation {β : Type} (readValue : β → Nat → Value) (resultType : Ty)
    (cases : List Case) (outputData : β) : Option String :=
  let outputs := (List.range cases.length).map fun i =>
    readValue outputData (i * valueStride resultType)
  let errs := (List.range cases.length).foldl (fun errs caseIdx =>
    let c := cases.getD caseIdx defaultCase
    let got := outputs.getD caseIdx defaultValue
    let cmp := (toComparator c.expected).compare got
    if cmp.matched then errs else errs ++ [errRecord c cmp]) []
  if errs.length > 0 then some (String.intercalate "\n\n" errs) else none

/-- The inductive invariant of the flight controller: the counter never
passes 6, and a woken-but-not-yet-resumed submitter has room for its pending
increment. -/
def FlightInv (s : FlightState) : Prop :=
  s.batchesInFlight ≤ maxBatchesInFlight + 1 ∧
    (s.pc = FlightPC.woken → s.batchesInFlight ≤ maxBatchesInFlight)

/-! ## Theorems -/

theorem flightInv_step {s s' : FlightState} (hinv : FlightInv s)
    (hstep : FlightStep s s') : FlightInv s' := by
  obtain ⟨h1, h2⟩ := hinv
  cases hstep <;> simp_all [FlightInv, maxBatchesInFlight] <;> omega

theorem flightInv_reachable {s : FlightState} (h : FlightReachable s) : FlightInv s := by
  induction h with
  | start => exact ⟨Nat.zero_le _, by intro h; exact absurd h (by decide)⟩
  | step _ hs ih => exact flightInv_step ih hs

/-- Claim C3: throughout any execution of `run`, the outstanding-batch
counter `batchesInFlight` never exceeds the ceiling `maxBatchesInFlight = 5`
by more than one: every state reachable by interleaving submissions,
admission blocks, completion callbacks and resumptions keeps the counter at
most 6, because the submitter increments only after observing the counter at
most 5 (or after being woken by a decrement that left it at most 5). -/
theorem run_batchesInFlight_bounded (s : FlightState) (h : FlightReachable s) :
    s.batchesInFlight ≤ maxBatchesInFlight + 1 :=
  (flightInv_reachable h).1

/-- Witness for C3: a concrete reachable state (two entered batches)
satisfies the bound. -/
theorem run_batchesInFlight_bounded_witness :
    FlightReachable ⟨2, FlightPC.ready⟩ ∧
      (⟨2, FlightPC.ready⟩ : FlightState).batchesInFlight ≤ maxBatchesInFlight + 1 := by
  have h : FlightReachable ⟨2, FlightPC.ready⟩ :=
    .step (.step .start (.enter 0 (by decide))) (.enter 1 (by decide))
  exact ⟨h, run_batchesInFlight_bounded _ h⟩

/-- Claim C6: the boolean storage encoding round-trips — for bool scalar and
bool vector values, loading the stored encoding (`u32` 0/1, recovered by
comparing `!= 0u`, element-wise for vectors) yields the value back, the
generated conversion text is exactly the `select`/`!= 0u` pair, and for
every type whose element kind is neither bool nor abstract-float both
`fromStorage` and `toStorage` pass the expression through unchanged. -/
theorem boolNorm_eq (s : Scalar) (hk : s.kind = ScalarKind.bool) (hb : s.bits ≤ 1) :
    Scalar.mk ScalarKind.bool (if (if s.bits ≠ 0 then 1 else 0) ≠ 0 then 1 else 0) = s := by
  obtain ⟨k, b⟩ := s
  have hk' : k = ScalarKind.bool := hk
  have hb' : b ≤ 1 := hb
  subst hk'
  have : b = 0 ∨ b = 1 := by omega
  rcases this with h | h <;> subst h <;> rfl

theorem bool_storage_roundtrip :
    (∀ s : Scalar, s.kind = ScalarKind.bool → s.bits ≤ 1 →
      fromStorageSem (Ty.scalar ScalarKind.bool)
        (toStorageSem (Ty.scalar ScalarKind.bool) (Value.scalar s)) = Value.scalar s) ∧
    (∀ (w : Nat) (es : List Scalar),
      (∀ s ∈ es, s.kind = ScalarKind.bool ∧ s.bits ≤ 1) →
      fromStorageSem (Ty.vector w ScalarKind.bool)
        (toStorageSem (Ty.vector w ScalarKind.bool) (Value.vector es)) = Value.vector es) ∧
    (∀ expr : String,
      toStorage (Ty.scalar ScalarKind.bool) expr =
        .ok ("select(0u, 1u, " ++ expr ++ ")") ∧
      fromStorage (Ty.scalar ScalarKind.bool) expr = .ok (expr ++ " != 0u")) ∧
    (∀ (ty : Ty) (expr : String), scalarTypeOf ty ≠ ScalarKind.bool →
      scalarTypeOf ty ≠ ScalarKind.abstractFloat →
      fromStorage ty expr = .ok expr ∧ toStorage ty expr = .ok expr) := by
  refine ⟨?_, ?_, ?_, ?_⟩
  · intro s hk hb
    simp only [toStorageSem, fromStorageSem]
    exact congrArg Value.scalar (boolNorm_eq s hk hb)
  · intro w es h
    simp only [toStorageSem, fromStorageSem, List.map_map]
    refine congrArg Value.vector ?_
    revert h
    induction es with
    | nil => intro _; rfl
    | cons s es ih =>
        intro h
        simp only [List.map_cons, Function.comp]
        rw [boolNorm_eq s (h s (by simp)).1 (h s (by simp)).2]
        rw [ih (fun x hx => h x (by simp [hx]))]
  · intro expr
    exact ⟨rfl, rfl⟩
  · intro ty expr h1 h2
    cases ty <;> simp_all [fromStorage, toStorage, scalarTypeOf]

/-- Witness for C6: the bool scalar `true` (bits 1) round-trips. -/
theorem bool_storage_roundtrip_witness :
    fromStorageSem (Ty.scalar ScalarKind.bool)
      (toStorageSem (Ty.scalar ScalarKind.bool)
        (Value.scalar { kind := ScalarKind.bool, bits := 1 })) =
      Value.scalar { kind := ScalarKind.bool, bits := 1 } :=
  bool_storage_roundtrip.1 _ rfl (by decide)

/-- Claim C2 (amended): in the direct-expression builder's const mode,
whenever any PARAMETER type involves the abstract-float kind, the generated
shader assigns each case's expression result directly into the corresponding
output slot — one statement per case, with no values table (the table helper
returns the empty string) and no `toStorage` store. The check inspects only
the parameter types; see the counterexample for an abstract-float result
type alone. -/
theorem basic_const_abstract_direct (unroll : Bool) (eb : ExpressionBuilder)
    (pts : List Ty) (rt : Ty) (cases : List Case)
    (h : pts.any (fun ty => scalarTypeOf ty == ScalarKind.abstractFloat) = true) :
    basicExpressionBuilder unroll eb pts rt cases InputSource.const =
      .ok ("\n" ++ wgslHeader pts rt ++ "\n\n" ++ wgslOutputs rt cases.length ++
           "\n\n" ++ "" ++ "\n\n@compute @workgroup_size(1)\nfn main() \x7b\n" ++
           String.intercalate "\n  " (cases.enum.map fun p =>
             "  outputs[" ++ toString p.1 ++ "].value = " ++
               eb (inputMap p.2.input Value.wgsl) ++ ";") ++ "\n\x7d") ∧
    wgslValuesArray pts rt cases eb = "" := by
  constructor
  · simp [basicExpressionBuilder, h, wgslValuesArray, Bind.bind, Except.bind,
      pure, Except.pure]
  · simp [wgslValuesArray, h]

/-- Witness for C2: a single abstract-float parameter triggers the direct
per-case assignment and an empty values table. -/
theorem basic_const_abstract_direct_witness :
    basicExpressionBuilder false (fun vs => String.intercalate " + " vs)
      [Ty.scalar ScalarKind.abstractFloat] (Ty.scalar ScalarKind.abstractFloat)
      [defaultCase] InputSource.const =
      .ok ("\n" ++
           wgslHeader [Ty.scalar ScalarKind.abstractFloat] (Ty.scalar ScalarKind.abstractFloat) ++
           "\n\n" ++ wgslOutputs (Ty.scalar ScalarKind.abstractFloat) [defaultCase].length ++
           "\n\n" ++ "" ++ "\n\n@compute @workgroup_size(1)\nfn main() \x7b\n" ++
           String.intercalate "\n  " ([defaultCase].enum.map fun p =>
             "  outputs[" ++ toString p.1 ++ "].value = " ++
               (fun vs => String.intercalate " + " vs) (inputMap p.2.input Value.wgsl) ++ ";") ++
           "\n\x7d") ∧
    wgslValuesArray [Ty.scalar ScalarKind.abstractFloat] (Ty.scalar ScalarKind.abstractFloat)
      [defaultCase] (fun vs => String.intercalate " + " vs) = "" :=
  basic_const_abstract_direct false _ _ _ _ (by decide)

/-- Counterexample for C2 as stated: with an abstract-float RESULT type but
no abstract-float parameter, the const-mode builder does not emit the
direct-assignment shader — it takes the values-table branch and faults in
`toStorage` (the condition at expression.ts line 499 inspects only the
parameter types). -/
theorem basic_const_result_abstract_cex :
    basicExpressionBuilder false (fun vs => String.intercalate " + " vs)
      [Ty.scalar ScalarKind.f32] (Ty.scalar ScalarKind.abstractFloat) [defaultCase]
      InputSource.const = .error "No storage type defined for AbstractFloat values" := by
  rfl

theorem caseValueStrings_error_iff (cases : List Case) :
    (∃ e, caseValueStrings cases = Except.error e) ↔
      ∃ c ∈ cases, ∀ vs, c.input ≠ CaseInput.many vs := by
  induction cases with
  | nil => simp [caseValueStrings]
  | cons c cs ih =>
      rcases hc : c.input with v | vs
      · simp only [caseValueStrings, hc, castValueList, Bind.bind, Except.bind]
        constructor
        · intro _
          exact ⟨c, by simp, fun vs h => by rw [hc] at h; exact absurd h (by simp)⟩
        · intro _
          exact ⟨"TypeError: c.input.map is not a function", rfl⟩
      · rcases htail : caseValueStrings cs with e | l
        · simp only [caseValueStrings, hc, castValueList, htail, Bind.bind, Except.bind]
          constructor
          · intro _
            obtain ⟨c', hc', hv⟩ := ih.mp ⟨e, htail⟩
            exact ⟨c', by simp [hc'], hv⟩
          · intro _
            exact ⟨e, rfl⟩
        · simp only [caseValueStrings, hc, castValueList, htail, Bind.bind, Except.bind]
          constructor
          · rintro ⟨e, he⟩
            exact absurd he (by simp)
          · rintro ⟨c', hc', hv⟩
            rcases List.mem_cons.mp hc' with rfl | hmem
            · exact absurd hc (hv vs)
            · obtain ⟨e, he⟩ := ih.mpr ⟨c', hmem, hv⟩
              rw [htail] at he
              exact absurd he (by simp)

/-- Claim C8 (amended): the compound-assignment builder returns an error,
before emitting any shader text, exactly when the parameter list does not
have two entries, or the result type differs from the first (left) parameter
type, or — after that validation passes — the source is `const` and some
case input is a single value rather than a value list (the
`(c.input as Value[]).map` type confusion). -/
theorem compoundAssignmentBuilder_validation (unroll : Bool) (op : String)
    (pts : List Ty) (rt : Ty) (cases : List Case) (is : InputSource) :
    (∃ e, compoundAssignmentBuilder unroll op pts rt cases is = .error e) ↔
      (pts.length ≠ 2 ∨ pts.getD 0 (Ty.scalar ScalarKind.bool) ≠ rt ∨
        (is = InputSource.const ∧ ∃ c ∈ cases, ∀ vs, c.input ≠ CaseInput.many vs)) := by
  unfold compoundAssignmentBuilder
  by_cases h2 : pts.length ≠ 2
  · rw [if_pos h2]
    constructor
    · intro _
      exact Or.inl h2
    · intro _
      exact ⟨_, rfl⟩
  · rw [if_neg h2]
    by_cases hlr : pts.getD 0 (Ty.scalar ScalarKind.bool) ≠ rt
    · rw [if_pos hlr]
      constructor
      · intro _
        exact Or.inr (Or.inl hlr)
      · intro _
        exact ⟨_, rfl⟩
    · rw [if_neg hlr]
      by_cases hconst : is = InputSource.const
      · subst hconst
        rw [if_pos rfl]
        rcases htail : caseValueStrings cases with e | l
        · constructor
          · intro _
            exact Or.inr (Or.inr ⟨rfl, (caseValueStrings_error_iff cases).mp ⟨e, htail⟩⟩)
          · intro _
            exact ⟨e, by simp [htail, Bind.bind, Except.bind]⟩
        · constructor
          · rintro ⟨e, he⟩
            simp [htail, Bind.bind, Except.bind, pure, Except.pure] at he
          · rintro (h | h | ⟨-, hex⟩)
            · exact absurd h h2
            · exact absurd h hlr
            · obtain ⟨e, he⟩ := (caseValueStrings_error_iff cases).mpr hex
              rw [htail] at he
              exact absurd he (by simp)
      · rw [if_neg hconst]
        have hvar : ∃ s, wgslInputVar is cases.length = .ok s := by
          cases is <;> simp [wgslInputVar] at hconst ⊢
        obtain ⟨s, hs⟩ := hvar
        constructor
        · rintro ⟨e, he⟩
          simp [hs, Bind.bind, Except.bind, pure, Except.pure] at he
        · rintro (h | h | ⟨hc, -⟩)
          · exact absurd h h2
          · exact absurd h hlr
          · exact absurd hc hconst

/-- Witness for C8: the spec's end-to-end scenario — parameter types
`[i32, i32]` with result type `u32` — fails before any text is emitted. -/
theorem compoundAssignmentBuilder_validation_witness :
    ∃ e, compoundAssignmentBuilder false "+="
      [Ty.scalar ScalarKind.i32, Ty.scalar ScalarKind.i32]
      (Ty.scalar ScalarKind.u32) [] InputSource.storage_r = .error e :=
  (compoundAssignmentBuilder_validation false "+=" _ _ [] InputSource.storage_r).mpr
    (Or.inr (Or.inl (by decide)))

/-- Counterexample for C8 as stated: with two parameters and a matching
result type (so the claimed condition is false), the const-mode builder
still throws, because the case input is a single value and the
`(c.input as Value[]).map` call faults. -/
theorem compound_const_nonarray_cex :
    compoundAssignmentBuilder false "+="
      [Ty.scalar ScalarKind.i32, Ty.scalar ScalarKind.i32]
      (Ty.scalar ScalarKind.i32) [defaultCase] InputSource.const =
      .error "TypeError: c.input.map is not a function" := by
  rfl

theorem ceil_div_succ (a W : Nat) (hW : 0 < W) (ha : 0 < a) :
    (a + W - 1) / W = (a - W + W - 1) / W + 1 := by
  rcases le_or_lt a W with h | h
  · have h1 : a - W = 0 := by omega
    have h2 : a + W - 1 = (a - 1) + W := by omega
    rw [h1, h2, Nat.add_div_right _ hW]
    rw [Nat.div_eq_of_lt (by omega : a - 1 < W), Nat.div_eq_of_lt (by omega : 0 + W - 1 < W)]
  · have h2 : a + W - 1 = (a - 1) + W := by omega
    have h5 : a - W + W - 1 = a - 1 := by omega
    rw [h2, h5, Nat.add_div_right _ hW]

theorem sliceBatches_join (cases : List Case) (cpb : Nat) (h : 0 < cpb) (i : Nat) :
    (sliceBatches cases cpb h i).join = cases.drop i := by
  rw [sliceBatches]
  by_cases hi : i < cases.length
  · rw [dif_pos hi]
    rw [show ((cases.drop i).take cpb :: sliceBatches cases cpb h (i + cpb)).join =
        (cases.drop i).take cpb ++ (sliceBatches cases cpb h (i + cpb)).join from rfl]
    rw [sliceBatches_join cases cpb h (i + cpb)]
    have hd : cases.drop (i + cpb) = (cases.drop i).drop cpb := by
      rw [List.drop_drop, Nat.add_comm]
    rw [hd, List.take_append_drop]
  · rw [dif_neg hi]
    rw [show ([] : List (List Case)).join = [] from rfl]
    exact (List.drop_eq_nil_of_le (by omega)).symm
termination_by cases.length - i
decreasing_by omega

theorem sliceBatches_mem_length (cases : List Case) (cpb : Nat) (h : 0 < cpb) (i : Nat)
    (b : List Case) (hb : b ∈ sliceBatches cases cpb h i) : b.length ≤ cpb := by
  rw [sliceBatches] at hb
  by_cases hi : i < cases.length
  · rw [dif_pos hi] at hb
    rcases List.mem_cons.mp hb with rfl | hmem
    · rw [List.length_take]
      exact min_le_left _ _
    · exact sliceBatches_mem_length cases cpb h (i + cpb) b hmem
  · rw [dif_neg hi] at hb
    exact absurd hb (List.not_mem_nil b)
termination_by cases.length - i
decreasing_by omega

/-- Claim C1 (amended): for every case list, partitioning into batches of
`casesPerBatch` reproduces the original list in order when concatenated, and
for the buffer-backed input sources every batch's INPUT buffer bytes fit the
applicable binding limit. (The output buffer bytes are not bounded by the
limit — see the counterexample — and `const` mode uses the fixed batch size
32 with no limit check.) -/
theorem run_batches_partition (cases : List Case) (pts : List Ty) (is : InputSource)
    (uL sL : Nat) (h : 0 < casesPerBatch is uL sL pts) :
    (sliceBatches cases (casesPerBatch is uL sL pts) h 0).join = cases ∧
    (is ≠ InputSource.const →
      ∀ b ∈ sliceBatches cases (casesPerBatch is uL sL pts) h 0,
        inputBufferSize pts b ≤ applicableLimit is uL sL) := by
  constructor
  · simpa using sliceBatches_join cases _ h 0
  · intro hc b hb
    have hlen : b.length ≤ casesPerBatch is uL sL pts :=
      sliceBatches_mem_length _ _ _ _ _ hb
    have hcpb : casesPerBatch is uL sL pts =
        applicableLimit is uL sL / valueStrides pts := by
      cases is with
      | const => exact absurd rfl hc
      | uniform => rfl
      | storage_r => rfl
      | storage_rw => rfl
    calc inputBufferSize pts b = b.length * valueStrides pts := rfl
      _ ≤ (applicableLimit is uL sL / valueStrides pts) * valueStrides pts := by
          rw [← hcpb]
          exact Nat.mul_le_mul_right _ hlen
      _ ≤ applicableLimit is uL sL := Nat.div_mul_le_self _ _

theorem cpb_pos_ex :
    0 < casesPerBatch InputSource.storage_r 0 16 [Ty.scalar ScalarKind.f32] := by
  decide

/-- Witness for C1: one f32 parameter, storage limit 16 bytes, one case —
the single batch concatenates back and its input bytes fit the limit. -/
theorem run_batches_partition_witness :
    (sliceBatches [defaultCase]
        (casesPerBatch InputSource.storage_r 0 16 [Ty.scalar ScalarKind.f32])
        cpb_pos_ex 0).join = [defaultCase] ∧
    (InputSource.storage_r ≠ InputSource.const →
      ∀ b ∈ sliceBatches [defaultCase]
          (casesPerBatch InputSource.storage_r 0 16 [Ty.scalar ScalarKind.f32])
          cpb_pos_ex 0,
        inputBufferSize [Ty.scalar ScalarKind.f32] b ≤
          applicableLimit InputSource.storage_r 0 16) :=
  run_batches_partition [defaultCase] [Ty.scalar ScalarKind.f32]
    InputSource.storage_r 0 16 cpb_pos_ex

/-- Counterexample for C1 as stated: with one f32 parameter, an f32 result
and a 16-byte storage limit, the partition produces the batch
`[defaultCase]` whose input bytes (16) alone reach the limit, so input plus
output bytes (32) exceed it — `run` never checks the output buffer against
the binding limit. -/
theorem run_batches_bytes_cex :
    casesPerBatch InputSource.storage_r 0 16 [Ty.scalar ScalarKind.f32] = 1 ∧
    sliceBatches [defaultCase] 1 Nat.one_pos 0 = [[defaultCase]] ∧
    applicableLimit InputSource.storage_r 0 16 <
      inputBufferSize [Ty.scalar ScalarKind.f32] [defaultCase] +
        outputBufferSize (Ty.scalar ScalarKind.f32) [defaultCase] := by
  refine ⟨by decide, ?_, by decide⟩
  rw [sliceBatches, dif_pos (by decide : (0 : Nat) < [defaultCase].length)]
  rw [sliceBatches, dif_neg (by decide : ¬ (1 : Nat) < [defaultCase].length)]
  rfl

theorem loopIters_step_zero (len : Nat) :
    ∀ fuel i, i < len → loopIters len 0 fuel i = none := by
  intro fuel
  induction fuel with
  | zero => intro i hi; simp [loopIters, hi]
  | succ fuel ih => intro i hi; simp [loopIters, hi, ih i hi]

theorem loopIters_terminates (len step : Nat) (hstep : 0 < step) :
    ∀ fuel i, len ≤ i + step * fuel →
      loopIters len step fuel i = some ((len - i + step - 1) / step) := by
  intro fuel
  induction fuel with
  | zero =>
      intro i hle
      simp only [Nat.mul_zero, Nat.add_zero] at hle
      have hi : ¬ i < len := by omega
      simp only [loopIters, if_neg hi]
      rw [show len - i = 0 by omega]
      rw [Nat.div_eq_of_lt (by omega : 0 + step - 1 < step)]
  | succ fuel ih =>
      intro i hle
      by_cases hi : i < len
      · simp only [loopIters, if_pos hi]
        have hms : step * (fuel + 1) = step * fuel + step := Nat.mul_succ step fuel
        rw [ih (i + step) (by omega)]
        show some ((len - (i + step) + step - 1) / step + 1) = _
        refine congrArg some ?_
        rw [show len - (i + step) = len - i - step by omega]
        exact (ceil_div_succ (len - i) step hstep (by omega)).symm
      · simp only [loopIters, if_neg hi]
        rw [show len - i = 0 by omega]
        rw [Nat.div_eq_of_lt (by omega : 0 + step - 1 < step)]

theorem loopIters_some_count (len step : Nat) :
    ∀ fuel i n, loopIters len step fuel i = some n →
      n = (len - i + step - 1) / step ∧ (i < len → 0 < step) := by
  have hz : ∀ s : Nat, (0 + s - 1) / s = 0 := by
    intro s
    rcases Nat.eq_zero_or_pos s with h | h
    · subst h; rfl
    · exact Nat.div_eq_of_lt (by omega)
  intro fuel
  induction fuel with
  | zero =>
      intro i n h
      by_cases hi : i < len
      · simp [loopIters, hi] at h
      · simp only [loopIters, if_neg hi, Option.some.injEq] at h
        subst h
        refine ⟨?_, fun hlt => absurd hlt hi⟩
        rw [show len - i = 0 by omega, hz]
  | succ fuel ih =>
      intro i n h
      by_cases hi : i < len
      · simp only [loopIters, if_pos hi] at h
        rcases ho : loopIters len step fuel (i + step) with _ | m
        · rw [ho] at h; simp at h
        · rw [ho] at h
          simp at h
          obtain ⟨hm, -⟩ := ih (i + step) m ho
          have hstep : 0 < step := by
            rcases Nat.eq_zero_or_pos step with h0 | h0
            · subst h0
              rw [Nat.add_zero] at ho
              rw [loopIters_step_zero len fuel i hi] at ho
              exact absurd ho (by simp)
            · exact h0
          refine ⟨?_, fun _ => hstep⟩
          subst h
          rw [hm, show len - (i + step) = len - i - step by omega]
          exact (ceil_div_succ (len - i) step hstep (by omega)).symm
      · simp only [loopIters, if_neg hi, Option.some.injEq] at h
        subst h
        refine ⟨?_, fun hlt => absurd hlt hi⟩
        rw [show len - i = 0 by omega, hz]

/-- Claim C10: for a non-empty case list in a buffer-backed input source
mode, `casesPerBatch` is the applicable limit divided by the combined
per-case input stride; the submission loop terminates — in exactly
`ceil(len / casesPerBatch)` iterations — if and only if that quotient is at
least 1; and when the combined stride exceeds the applicable limit the
quotient is 0, the loop index never advances, and the loop never finishes
under any fuel. -/
theorem run_loop_termination (pts : List Ty) (is : InputSource) (uL sL : Nat)
    (cases : List Case) (hbuf : is ≠ InputSource.const) (hne : cases ≠ [])
    (hpts : pts ≠ []) (hhandled : ∀ ty ∈ pts, layoutHandled ty) :
    casesPerBatch is uL sL pts = applicableLimit is uL sL / valueStrides pts ∧
    ((∃ fuel n, loopIters cases.length (casesPerBatch is uL sL pts) fuel 0 = some n) ↔
      1 ≤ applicableLimit is uL sL / valueStrides pts) ∧
    (∀ fuel n, loopIters cases.length (casesPerBatch is uL sL pts) fuel 0 = some n →
      n = (cases.length + casesPerBatch is uL sL pts - 1) / casesPerBatch is uL sL pts) ∧
    (applicableLimit is uL sL < valueStrides pts →
      ∀ fuel, loopIters cases.length (casesPerBatch is uL sL pts) fuel 0 = none) := by
  have hcpb : casesPerBatch is uL sL pts =
      applicableLimit is uL sL / valueStrides pts := by
    cases is with
    | const => exact absurd rfl hbuf
    | uniform => rfl
    | storage_r => rfl
    | storage_rw => rfl
  have hlen : 0 < cases.length := List.length_pos.mpr hne
  refine ⟨hcpb, ⟨?_, ?_⟩, ?_, ?_⟩
  · rintro ⟨fuel, n, hfn⟩
    by_contra hle
    have h0 : casesPerBatch is uL sL pts = 0 := by omega
    rw [h0] at hfn
    rw [loopIters_step_zero cases.length fuel 0 hlen] at hfn
    exact absurd hfn (by simp)
  · intro h1
    have hstep : 0 < casesPerBatch is uL sL pts := by omega
    refine ⟨cases.length, _, loopIters_terminates cases.length _ hstep cases.length 0 ?_⟩
    calc cases.length ≤ casesPerBatch is uL sL pts * cases.length :=
          Nat.le_mul_of_pos_left _ hstep
      _ = 0 + casesPerBatch is uL sL pts * cases.length := (Nat.zero_add _).symm
  · intro fuel n h
    have hc := (loopIters_some_count cases.length _ fuel 0 n h).1
    rw [Nat.sub_zero] at hc
    exact hc
  · intro hgt fuel
    have h0 : casesPerBatch is uL sL pts = 0 := by
      rw [hcpb]
      exact Nat.div_eq_of_lt hgt
    rw [h0]
    exact loopIters_step_zero cases.length fuel 0 hlen

/-- Witness for C10: one f32 parameter against a 16-byte storage limit, one
case — the quotient is 1 and the loop terminates after one iteration. -/
theorem run_loop_termination_witness :
    (InputSource.storage_r ≠ InputSource.const) ∧
    ([defaultCase] ≠ ([] : List Case)) ∧
    ([Ty.scalar ScalarKind.f32] ≠ ([] : List Ty)) ∧
    (casesPerBatch InputSource.storage_r 0 16 [Ty.scalar ScalarKind.f32] =
        applicableLimit InputSource.storage_r 0 16 /
          valueStrides [Ty.scalar ScalarKind.f32] ∧
      ((∃ fuel n, loopIters [defaultCase].length
          (casesPerBatch InputSource.storage_r 0 16 [Ty.scalar ScalarKind.f32])
          fuel 0 = some n) ↔
        1 ≤ applicableLimit InputSource.storage_r 0 16 /
          valueStrides [Ty.scalar ScalarKind.f32]) ∧
      (∀ fuel n, loopIters [defaultCase].length
          (casesPerBatch InputSource.storage_r 0 16 [Ty.scalar ScalarKind.f32])
          fuel 0 = some n →
        n = ([defaultCase].length +
              casesPerBatch InputSource.storage_r 0 16 [Ty.scalar ScalarKind.f32] - 1) /
            casesPerBatch InputSource.storage_r 0 16 [Ty.scalar ScalarKind.f32]) ∧
      (applicableLimit InputSource.storage_r 0 16 <
          valueStrides [Ty.scalar ScalarKind.f32] →
        ∀ fuel, loopIters [defaultCase].length
          (casesPerBatch InputSource.storage_r 0 16 [Ty.scalar ScalarKind.f32])
          fuel 0 = none)) :=
  ⟨by decide, by simp, by simp,
    run_loop_termination [Ty.scalar ScalarKind.f32] InputSource.storage_r 0 16
      [defaultCase] (by decide) (by simp) (by simp) (by decide)⟩

theorem getOrCreate_lookup_self (st : RunState) (key : String) :
    cacheLookup (getOrCreate st key createComputePipeline).2.cache key =
      some (getOrCreate st key createComputePipeline).1 := by
  unfold getOrCreate
  rcases hl : cacheLookup st.cache key with _ | v
  · simp [createComputePipeline, cacheLookup]
  · simpa [hl] using hl

theorem getOrCreate_preserves (st : RunState) (key s : String) (p : Nat)
    (hs : cacheLookup st.cache s = some p) :
    cacheLookup (getOrCreate st key createComputePipeline).2.cache s = some p := by
  unfold getOrCreate
  rcases hl : cacheLookup st.cache key with _ | v
  · have hne : (key == s) = false := by
      rcases h : key == s with _ | _
      · rfl
      · rw [show key = s from by simpa using h, hs] at hl
        exact absurd hl (by simp)
    show (List.find? (fun e => e.1 == s)
      ((key, st.nextPipelineId) :: st.cache)).map Prod.snd = some p
    rw [List.find?_cons_of_neg _ (by simp [hne])]
    exact hs
  · simpa [hl] using hs

theorem getOrCreate_cached (st : RunState) (key : String) (p : Nat)
    (h : cacheLookup st.cache key = some p) :
    getOrCreate st key createComputePipeline = (p, st) := by
  unfold getOrCreate
  simp [h]

theorem resolve_lookup_self (is : InputSource) (hc : is ≠ InputSource.const)
    (src : String) (st : RunState) :
    cacheLookup (buildPipelineResolve is src st).2.cache src =
      some (buildPipelineResolve is src st).1 := by
  cases is
  case const => exact absurd rfl hc
  all_goals exact getOrCreate_lookup_self st src

theorem resolve_preserves (is : InputSource) (k s : String) (p : Nat) (st : RunState)
    (hs : cacheLookup st.cache s = some p) :
    cacheLookup (buildPipelineResolve is k st).2.cache s = some p := by
  cases is
  case const => simpa [buildPipelineResolve, createComputePipeline] using hs
  all_goals exact getOrCreate_preserves st k s p hs

theorem resolve_cached (is : InputSource) (hc : is ≠ InputSource.const)
    (src : String) (st : RunState) (p : Nat)
    (h : cacheLookup st.cache src = some p) :
    buildPipelineResolve is src st = (p, st) := by
  cases is
  case const => exact absurd rfl hc
  all_goals exact getOrCreate_cached st src p h

theorem resolveAll_after (bs : List (InputSource × String)) :
    ∀ (st : RunState) (src : String) (p : Nat), cacheLookup st.cache src = some p →
      ∀ (j : Nat) (isj : InputSource), bs.get? j = some (isj, src) →
        isj ≠ InputSource.const → (resolveAll st bs).1.get? j = some p := by
  induction bs with
  | nil =>
      intro st src p _ j isj hj _
      simp at hj
  | cons b bs ih =>
      intro st src p hp j isj hj hc
      cases j with
      | zero =>
          have hb : b = (isj, src) := by simpa using hj
          subst hb
          simp only [resolveAll, List.get?_cons_zero]
          rw [resolve_cached isj hc src st p hp]
      | succ j' =>
          have hj' : bs.get? j' = some (isj, src) := by simpa using hj
          simp only [resolveAll, List.get?_cons_succ]
          exact ih (buildPipelineResolve b.1 b.2 st).2 src p
            (resolve_preserves b.1 b.2 src p st hp) j' isj hj' hc

theorem resolveAll_share_le (bs : List (InputSource × String)) :
    ∀ (st : RunState) (i j : Nat) (src : String) (isi isj : InputSource), i ≤ j →
      bs.get? i = some (isi, src) → bs.get? j = some (isj, src) →
      isi ≠ InputSource.const → isj ≠ InputSource.const →
      (resolveAll st bs).1.get? i = (resolveAll st bs).1.get? j := by
  induction bs with
  | nil =>
      intro st i j src isi isj _ hi _ _ _
      simp at hi
  | cons b bs ih =>
      intro st i j src isi isj hij hi hj hci hcj
      cases i with
      | zero =>
          have hb : b = (isi, src) := by simpa using hi
          subst hb
          cases j with
          | zero => rfl
          | succ j' =>
              have hj' : bs.get? j' = some (isj, src) := by simpa using hj
              have hafter := resolveAll_after bs (buildPipelineResolve isi src st).2
                src (buildPipelineResolve isi src st).1
                (resolve_lookup_self isi hci src st) j' isj hj' hcj
              simp only [resolveAll, List.get?_cons_zero, List.get?_cons_succ]
              exact hafter.symm
      | succ i' =>
          cases j with
          | zero => omega
          | succ j' =>
              have hi' : bs.get? i' = some (isi, src) := by simpa using hi
              have hj' : bs.get? j' = some (isj, src) := by simpa using hj
              simp only [resolveAll, List.get?_cons_succ]
              exact ih (buildPipelineResolve b.1 b.2 st).2 i' j' src isi isj
                (by omega) hi' hj' hci hcj

/-- Claim C7 (amended): for the buffer-backed input sources, `submitBatch`
resolves its pipeline by an exact source-text lookup in the run-shared
cache, inserting on a miss — so any two batches of one run whose synthesized
source texts are equal receive the same compiled pipeline. (`const` batches
bypass the cache entirely; see the counterexample.) -/
theorem pipeline_cache_shared (st0 : RunState) (bs : List (InputSource × String))
    (i j : Nat) (src : String) (isi isj : InputSource)
    (hi : bs.get? i = some (isi, src)) (hj : bs.get? j = some (isj, src))
    (hci : isi ≠ InputSource.const) (hcj : isj ≠ InputSource.const) :
    (resolveAll st0 bs).1.get? i = (resolveAll st0 bs).1.get? j := by
  rcases le_total i j with h | h
  · exact resolveAll_share_le bs st0 i j src isi isj h hi hj hci hcj
  · exact (resolveAll_share_le bs st0 j i src isj isi h hj hi hcj hci).symm

/-- Witness for C7: batches 0 and 2 of a three-batch run share the same
source text under a storage source and receive the same pipeline. -/
theorem pipeline_cache_shared_witness :
    (resolveAll ⟨[], 0⟩ [(InputSource.storage_r, "s"), (InputSource.uniform, "t"),
        (InputSource.storage_r, "s")]).1.get? 0 =
      (resolveAll ⟨[], 0⟩ [(InputSource.storage_r, "s"), (InputSource.uniform, "t"),
        (InputSource.storage_r, "s")]).1.get? 2 :=
  pipeline_cache_shared ⟨[], 0⟩ _ 0 2 "s" InputSource.storage_r InputSource.storage_r
    rfl rfl (by decide) (by decide)

/-- Counterexample for C7 as stated: two `const` batches with the identical
source text receive two distinct pipelines, and the run-shared cache is
never consulted or filled (expression.ts lines 697-714 build the pipeline
directly for `const`). -/
theorem pipeline_cache_const_cex :
    (resolveAll ⟨[], 0⟩ [(InputSource.const, "s"), (InputSource.const, "s")]).1.get? 0 ≠
      (resolveAll ⟨[], 0⟩ [(InputSource.const, "s"), (InputSource.const, "s")]).1.get? 1 ∧
    (resolveAll ⟨[], 0⟩ [(InputSource.const, "s"), (InputSource.const, "s")]).2.cache = [] := by
  exact ⟨by decide, by decide⟩

theorem packLoop_get? (pts : List Ty) (cases : List Case) (W : Nat) (hW : 0 < W)
    (prt : Ty) (caseIdx g : Nat) :
    (packLoop pts cases W hW prt caseIdx).get? g =
      if caseIdx + g * W < cases.length then
        some (mkPackedCase pts cases W prt (caseIdx + g * W))
      else none := by
  rw [packLoop]
  by_cases hi : caseIdx < cases.length
  · rw [dif_pos hi]
    cases g with
    | zero =>
        simp only [List.get?_cons_zero, Nat.zero_mul, Nat.add_zero]
        rw [if_pos hi]
    | succ g' =>
        simp only [List.get?_cons_succ]
        rw [packLoop_get? pts cases W hW prt (caseIdx + W) g']
        have harith : caseIdx + W + g' * W = caseIdx + (g' + 1) * W := by ring
        rw [harith]
  · rw [dif_neg hi]
    have hcond : ¬(caseIdx + g * W < cases.length) := by
      intro h
      exact hi (by omega)
    rw [if_neg hcond]
    simp
termination_by cases.length - caseIdx
decreasing_by omega

theorem packLoop_length (pts : List Ty) (cases : List Case) (W : Nat) (hW : 0 < W)
    (prt : Ty) (caseIdx : Nat) :
    (packLoop pts cases W hW prt caseIdx).length =
      (cases.length - caseIdx + W - 1) / W := by
  rw [packLoop]
  by_cases hi : caseIdx < cases.length
  · rw [dif_pos hi]
    simp only [List.length_cons]
    rw [packLoop_length pts cases W hW prt (caseIdx + W)]
    rw [show cases.length - (caseIdx + W) = cases.length - caseIdx - W by omega]
    exact (ceil_div_succ (cases.length - caseIdx) W hW (by omega)).symm
  · rw [dif_neg hi]
    simp only [List.length_nil]
    rw [show cases.length - caseIdx = 0 by omega]
    exact (Nat.div_eq_of_lt (by omega)).symm
termination_by cases.length - caseIdx
decreasing_by omega

theorem packLoop_get_lt (pts : List Ty) (cases : List Case) (W : Nat) (h0 : 0 < W)
    (prt : Ty) (g : Nat) (hg : g < (packLoop pts cases W h0 prt 0).length) :
    0 + g * W < cases.length := by
  by_contra hnc
  have hn : (packLoop pts cases W h0 prt 0).get? g = none := by
    rw [packLoop_get?, if_neg hnc]
  have hlen := List.get?_eq_none.mp hn
  omega

theorem packScalarsToVector_ok (pts : List Ty) (rt : Ty) (cases : List Case)
    (W : Nat) (h0 : 0 < W) (hp : ∀ ty ∈ pts, ty.isScalar = true)
    (hr : rt.isScalar = true) :
    packScalarsToVector pts rt cases W h0 =
      .ok (packLoop pts cases W h0 (Ty.vector W (asScalarKind rt)) 0,
           pts.map fun p => Ty.vector W (asScalarKind p),
           Ty.vector W (asScalarKind rt)) := by
  unfold packScalarsToVector
  have hfind : pts.find? (fun ty => !ty.isScalar) = none := by
    apply List.find?_eq_none.mpr
    intro ty hty
    simp [hp ty hty]
  rw [hfind]
  rw [if_neg (by simp [hr])]

/-- Claim C5: on an all-scalar parameter/result signature, the packer
succeeds, re-types parameters and result as W-wide vectors, produces
exactly `ceil(len / W)` packed cases, and the lane `i` of packed case `g`
gathers the input of original case `min(g*W + i, len - 1)` — so the trailing
lanes of a partial final group repeat the last original case. -/
theorem packScalarsToVector_shape (pts : List Ty) (rt : Ty) (cases : List Case)
    (W : Nat) (h0 : 0 < W) (hp : ∀ ty ∈ pts, ty.isScalar = true)
    (hr : rt.isScalar = true) :
    ∃ pk, packScalarsToVector pts rt cases W h0 = .ok pk ∧
      pk.2.1 = (pts.map fun p => Ty.vector W (asScalarKind p)) ∧
      pk.2.2 = Ty.vector W (asScalarKind rt) ∧
      pk.1.length = (cases.length + W - 1) / W ∧
      ∀ g < pk.1.length, ∃ exp, pk.1.get? g = some
        { input := CaseInput.many ((List.range pts.length).map fun paramIdx =>
            Value.vector ((List.range W).map fun i =>
              asScalar (inputElem
                (cases.getD (min (g * W + i) (cases.length - 1)) defaultCase).input
                paramIdx)))
          expected := exp } := by
  refine ⟨_, packScalarsToVector_ok pts rt cases W h0 hp hr, rfl, rfl, ?_, ?_⟩
  · rw [packLoop_length]
    rw [Nat.sub_zero]
  · intro g hg
    have hg' : g < (packLoop pts cases W h0 (Ty.vector W (asScalarKind rt)) 0).length := hg
    have hcond : 0 + g * W < cases.length := packLoop_get_lt pts cases W h0 _ g hg'
    refine ⟨(mkPackedCase pts cases W (Ty.vector W (asScalarKind rt)) (g * W)).expected, ?_⟩
    rw [packLoop_get?, if_pos hcond, Nat.zero_add]
    rfl

/-- Witness for C5: the spec's packing scenario shape — five scalar f32
cases packed with width 4 give two vector cases, the final lanes clamped to
the fifth case. -/
theorem packScalarsToVector_shape_witness :
    ∃ pk, packScalarsToVector [Ty.scalar ScalarKind.f32] (Ty.scalar ScalarKind.f32)
        (List.replicate 5 defaultCase) 4 (by decide) = .ok pk ∧
      pk.2.1 = ([Ty.scalar ScalarKind.f32].map fun p => Ty.vector 4 (asScalarKind p)) ∧
      pk.2.2 = Ty.vector 4 (asScalarKind (Ty.scalar ScalarKind.f32)) ∧
      pk.1.length = ((List.replicate 5 defaultCase).length + 4 - 1) / 4 ∧
      ∀ g < pk.1.length, ∃ exp, pk.1.get? g = some
        { input := CaseInput.many ((List.range [Ty.scalar ScalarKind.f32].length).map
            fun paramIdx => Value.vector ((List.range 4).map fun i =>
              asScalar (inputElem
                ((List.replicate 5 defaultCase).getD
                  (min (g * 4 + i) ((List.replicate 5 defaultCase).length - 1))
                  defaultCase).input paramIdx)))
          expected := exp } :=
  packScalarsToVector_shape [Ty.scalar ScalarKind.f32] (Ty.scalar ScalarKind.f32)
    (List.replicate 5 defaultCase) 4 (by decide) (by decide) (by decide)

theorem list_all_congr {α : Type} {l : List α} {f g : α → Bool}
    (h : ∀ x ∈ l, f x = g x) : l.all f = l.all g := by
  induction l with
  | nil => rfl
  | cons a l ih =>
      simp only [List.all_cons]
      rw [h a (by simp), ih (fun x hx => h x (by simp [hx]))]

theorem foldl_and_matched (ds : List CheckResult) :
    ∀ init : Bool, ds.foldl (fun m d => m && d.matched) init =
      (init && ds.all fun d => d.matched) := by
  induction ds with
  | nil => intro init; simp
  | cons d ds ih =>
      intro init
      simp only [List.foldl_cons, List.all_cons]
      rw [ih (init && d.matched), Bool.and_assoc]

theorem range_map_getD {α : Type} (n i : Nat) (hi : i < n) (f : Nat → α) (d : α) :
    ((List.range n).map f).getD i d = f i := by
  show (((List.range n).map f).get? i).getD d = f i
  rw [List.get?_map, List.get?_range hi]
  rfl

theorem cmpImplsAt_getD (cases : List Case) (W c i : Nat) (hi : i < W)
    (d : ComparatorImpl) :
    (cmpImplsAt cases W c).getD i d =
      (toComparator (cases.getD (clampCaseIdx cases (c + i)) defaultCase).expected).compare := by
  unfold cmpImplsAt
  exact range_map_getD W i hi _ d

theorem list_all_map {α β : Type} (l : List α) (f : α → β) (p : β → Bool) :
    (l.map f).all p = l.all (fun x => p (f x)) := by
  induction l with
  | nil => rfl
  | cons a l ih => simp [List.all_cons, ih]

theorem packedComparator_compare (cmpImpls : List ComparatorImpl) (W : Nat)
    (prt : Ty) (got : Value) :
    ((packedComparator cmpImpls W prt).compare got).matched =
      (List.range W).all (fun i =>
        ((cmpImpls.getD i (fun _ => defaultCheck))
          (Value.scalar ((asVectorElems got).getD i defaultScalar))).matched) := by
  unfold packedComparator
  simp only []
  rw [foldl_and_matched, Bool.true_and, list_all_map]

/-- Claim C4: the composite comparator of packed case `g` invokes, for each
lane `i < W`, the comparator of original case `min(g*W + i, len - 1)` on the
`i`-th element of the result vector, in input order, and reports matched
exactly when all `W` lanes matched; consequently, on a result vector whose
lanes carry the per-original-case scalar results, the packed verdict is true
exactly when every covered original case's own comparator matches its own
result — the per-case verdicts of the unpacked list. -/
theorem packScalars_comparator (pts : List Ty) (rt : Ty) (cases : List Case)
    (W : Nat) (h0 : 0 < W) (hp : ∀ ty ∈ pts, ty.isScalar = true)
    (hr : rt.isScalar = true) :
    ∃ pk, packScalarsToVector pts rt cases W h0 = .ok pk ∧
      ∀ g < pk.1.length, ∃ inp impl,
        pk.1.get? g = some (
          { input := inp,
            expected := Expectation.comparator { compare := impl, kind := "packed" } }) ∧
        (∀ got : Value, (impl got).matched = (List.range W).all fun i =>
          ((toComparator (cases.getD (min (g * W + i) (cases.length - 1))
              defaultCase).expected).compare
            (Value.scalar ((asVectorElems got).getD i defaultScalar))).matched) ∧
        (∀ rs : Nat → Scalar,
          ((impl (Value.vector ((List.range W).map fun i =>
              rs (min (g * W + i) (cases.length - 1))))).matched = true ↔
            ∀ i < W, ((toComparator (cases.getD (min (g * W + i) (cases.length - 1))
                defaultCase).expected).compare
              (Value.scalar (rs (min (g * W + i) (cases.length - 1))))).matched = true)) := by
  refine ⟨_, packScalarsToVector_ok pts rt cases W h0 hp hr, ?_⟩
  intro g hg
  have hg' : g < (packLoop pts cases W h0 (Ty.vector W (asScalarKind rt)) 0).length := hg
  have hcond : 0 + g * W < cases.length := packLoop_get_lt pts cases W h0 _ g hg'
  have hlane : ∀ (i : Nat), i < W → ∀ v : Value,
      (((cmpImplsAt cases W (g * W)).getD i (fun _ => defaultCheck)) v).matched =
        ((toComparator (cases.getD (min (g * W + i) (cases.length - 1))
          defaultCase).expected).compare v).matched := by
    intro i hi v
    rw [cmpImplsAt_getD cases W (g * W) i hi]
    rfl
  refine ⟨(mkPackedCase pts cases W (Ty.vector W (asScalarKind rt)) (g * W)).input,
    (packedComparator (cmpImplsAt cases W (g * W)) W
      (Ty.vector W (asScalarKind rt))).compare, ?_, ?_, ?_⟩
  · rw [packLoop_get?, if_pos hcond, Nat.zero_add]
    rfl
  · intro got
    rw [packedComparator_compare]
    exact list_all_congr (fun i hi => hlane i (List.mem_range.mp hi) _)
  · intro rs
    rw [packedComparator_compare]
    have hext : ∀ i, i < W →
        ((asVectorElems (Value.vector ((List.range W).map fun i =>
          rs (min (g * W + i) (cases.length - 1))))).getD i defaultScalar) =
          rs (min (g * W + i) (cases.length - 1)) := by
      intro i hi
      exact range_map_getD W i hi _ defaultScalar
    rw [List.all_eq_true]
    constructor
    · intro hall i hi
      have := hall i (List.mem_range.mpr hi)
      rw [hext i hi] at this
      rw [← hlane i hi]
      exact this
    · intro hall i hi
      have hi' := List.mem_range.mp hi
      rw [hext i hi', hlane i hi']
      exact hall i hi'

/-- Witness for C4: a one-case f32 list packed at width 2 — the packed
comparator exists and satisfies the lane-wise characterization. -/
theorem packScalars_comparator_witness :
    ∃ pk, packScalarsToVector [Ty.scalar ScalarKind.f32] (Ty.scalar ScalarKind.f32)
        [defaultCase] 2 (by decide) = .ok pk ∧
      ∀ g < pk.1.length, ∃ inp impl,
        pk.1.get? g = some (
          { input := inp,
            expected := Expectation.comparator { compare := impl, kind := "packed" } }) ∧
        (∀ got : Value, (impl got).matched = (List.range 2).all fun i =>
          ((toComparator ([defaultCase].getD (min (g * 2 + i) ([defaultCase].length - 1))
              defaultCase).expected).compare
            (Value.scalar ((asVectorElems got).getD i defaultScalar))).matched) ∧
        (∀ rs : Nat → Scalar,
          ((impl (Value.vector ((List.range 2).map fun i =>
              rs (min (g * 2 + i) ([defaultCase].length - 1))))).matched = true ↔
            ∀ i < 2, ((toComparator ([defaultCase].getD (min (g * 2 + i)
                ([defaultCase].length - 1)) defaultCase).expected).compare
              (Value.scalar (rs (min (g * 2 + i)
                ([defaultCase].length - 1))))).matched = true)) :=
  packScalars_comparator [Ty.scalar ScalarKind.f32] (Ty.scalar ScalarKind.f32)
    [defaultCase] 2 (by decide) (by decide) (by decide)

theorem foldl_collect {α β : Type} (l : List α) (keep : α → Bool) (f : α → β) :
    ∀ init : List β,
      l.foldl (fun acc x => if keep x then acc else acc ++ [f x]) init =
        init ++ l.filterMap (fun x => if keep x then none else some (f x)) := by
  induction l with
  | nil => intro init; simp
  | cons a l ih =>
      intro init
      simp only [List.foldl_cons, List.filterMap_cons]
      by_cases h : keep a
      · simp only [if_pos h, ih init]
      · simp only [if_neg h, ih (init ++ [f a]), List.append_assoc, List.singleton_append]

theorem range_filterMap_congr {β : Type} (n : Nat) (f g : Nat → Option β)
    (h : ∀ i < n, f i = g i) :
    (List.range n).filterMap f = (List.range n).filterMap g := by
  have hl : ∀ l : List Nat, (∀ i ∈ l, f i = g i) → l.filterMap f = l.filterMap g := by
    intro l
    induction l with
    | nil => intro _; rfl
    | cons a l ih =>
        intro hm
        simp only [List.filterMap_cons, hm a (by simp),
          ih (fun x hx => hm x (by simp [hx]))]
  exact hl _ (fun i hi => h i (List.mem_range.mp hi))

/-- Claim C9: the verification closure decodes exactly one value per case at
offsets `i * valueStride(resultType)`, runs every case's comparator
(wrapping non-comparator expectations via `toComparator`) without stopping
at the first mismatch — the collected records are exactly the filtered list
over ALL indices — joins all failure records into one diagnostic, and
returns an error precisely when at least one case mismatched. -/
theorem checkExpectation_spec {β : Type} (readValue : β → Nat → Value) (rt : Ty)
    (cases : List Case) (outputData : β) :
    (checkExpectation readValue rt cases outputData =
      (let records := (List.range cases.length).filterMap fun i =>
         if ((toComparator (cases.getD i defaultCase).expected).compare
              (readValue outputData (i * valueStride rt))).matched then none
         else some (errRecord (cases.getD i defaultCase)
           ((toComparator (cases.getD i defaultCase).expected).compare
             (readValue outputData (i * valueStride rt))));
       if records.isEmpty then none
       else some (String.intercalate "\n\n" records))) ∧
    (checkExpectation readValue rt cases outputData = none ↔
      ∀ i < cases.length,
        ((toComparator (cases.getD i defaultCase).expected).compare
          (readValue outputData (i * valueStride rt))).matched = true) := by
  have hfun : ∀ i < cases.length,
      (if ((toComparator (cases.getD i defaultCase).expected).compare
            (((List.range cases.length).map fun j =>
              readValue outputData (j * valueStride rt)).getD i defaultValue)).matched
       then (none : Option String)
       else some (errRecord (cases.getD i defaultCase)
         ((toComparator (cases.getD i defaultCase).expected).compare
           (((List.range cases.length).map fun j =>
             readValue outputData (j * valueStride rt)).getD i defaultValue)))) =
      (if ((toComparator (cases.getD i defaultCase).expected).compare
            (readValue outputData (i * valueStride rt))).matched then none
       else some (errRecord (cases.getD i defaultCase)
         ((toComparator (cases.getD i defaultCase).expected).compare
           (readValue outputData (i * valueStride rt))))) := by
    intro i hi
    rw [range_map_getD cases.length i hi]
  have key : checkExpectation readValue rt cases outputData =
      (let records := (List.range cases.length).filterMap fun i =>
         if ((toComparator (cases.getD i defaultCase).expected).compare
              (readValue outputData (i * valueStride rt))).matched then none
         else some (errRecord (cases.getD i defaultCase)
           ((toComparator (cases.getD i defaultCase).expected).compare
             (readValue outputData (i * valueStride rt))));
       if records.isEmpty then none
       else some (String.intercalate "\n\n" records)) := by
    unfold checkExpectation
    dsimp only
    rw [foldl_collect (List.range cases.length)
      (fun i => ((toComparator (cases.getD i defaultCase).expected).compare
        (((List.range cases.length).map fun j =>
          readValue outputData (j * valueStride rt)).getD i defaultValue)).matched)
      (fun i => errRecord (cases.getD i defaultCase)
        ((toComparator (cases.getD i defaultCase).expected).compare
          (((List.range cases.length).map fun j =>
            readValue outputData (j * valueStride rt)).getD i defaultValue))) []]
    rw [List.nil_append]
    rw [range_filterMap_congr cases.length _ _ hfun]
    cases hr : (List.range cases.length).filterMap fun i =>
        if ((toComparator (cases.getD i defaultCase).expected).compare
             (readValue outputData (i * valueStride rt))).matched then (none : Option String)
        else some (errRecord (cases.getD i defaultCase)
          ((toComparator (cases.getD i defaultCase).expected).compare
            (readValue outputData (i * valueStride rt)))) with
    | nil => simp
    | cons r rs => simp
  refine ⟨key, ?_⟩
  rw [key]
  constructor
  · intro h i hi
    by_cases hE : ((List.range cases.length).filterMap fun i =>
        if ((toComparator (cases.getD i defaultCase).expected).compare
             (readValue outputData (i * valueStride rt))).matched then (none : Option String)
        else some (errRecord (cases.getD i defaultCase)
          ((toComparator (cases.getD i defaultCase).expected).compare
            (readValue outputData (i * valueStride rt))))).isEmpty
    · have hnil := List.isEmpty_iff.mp hE
      have hnone := List.filterMap_eq_nil.mp hnil i (List.mem_range.mpr hi)
      by_contra hm
      rw [if_neg hm] at hnone
      exact absurd hnone (by simp)
    · rw [if_neg hE] at h
      exact absurd h (by simp)
  · intro hall
    have hnil : ((List.range cases.length).filterMap fun i =>
        if ((toComparator (cases.getD i defaultCase).expected).compare
             (readValue outputData (i * valueStride rt))).matched then (none : Option String)
        else some (errRecord (cases.getD i defaultCase)
          ((toComparator (cases.getD i defaultCase).expected).compare
            (readValue outputData (i * valueStride rt))))) = [] := by
      apply List.filterMap_eq_nil.mpr
      intro i hi
      rw [if_pos (hall i (List.mem_range.mp hi))]
    rw [hnil]
    rfl

end CTS
